import Mathlib

/-!
Verification development for a poker engine: card model, deck dealing,
hand evaluation and scoring, hand-rank probability figures of merit,
the showdown winner selection, and the betting entry points of the
table state machine.  Python classes are embedded as Lean structures,
mutation as explicit state passing, and raised exceptions as
`Except` error results.
-/

/-- Suits of the deck, by their enum value in the source
(`HEARTS = 1`, `DIAMONDS = 2`, `CLUBS = 3`, `SPADES = 4`). -/
def HEARTS : Nat := 1

/-- Enum value of DIAMONDS. -/
def DIAMONDS : Nat := 2

/-- Enum value of CLUBS. -/
def CLUBS : Nat := 3

/-- Enum value of SPADES. -/
def SPADES : Nat := 4

/-- A card: rank ordinal 2..14 and suit ordinal 1..4.  The source stores
enum members whose `.value` fields are exactly these naturals; equality of
the enum members coincides with equality of the values. -/
structure Card where
  rank : Nat
  suit : Nat
deriving DecidableEq, Repr

/-- Hand ranks, mirroring the `HandRank` enum of the source. -/
inductive HandRank where
  | INITIAL
  | HIGH_CARD
  | PAIR
  | TWO_PAIR
  | THREE_OF_A_KIND
  | STRAIGHT
  | FLUSH
  | FULL_HOUSE
  | FOUR_OF_A_KIND
  | STRAIGHT_FLUSH
deriving DecidableEq, Repr

/-- Numeric value of a hand rank, as in the source enum. -/
def HandRank.val : HandRank → Nat
  | .INITIAL => 0
  | .HIGH_CARD => 1
  | .PAIR => 2
  | .TWO_PAIR => 3
  | .THREE_OF_A_KIND => 4
  | .STRAIGHT => 5
  | .FLUSH => 6
  | .FULL_HOUSE => 7
  | .FOUR_OF_A_KIND => 8
  | .STRAIGHT_FLUSH => 9

/-- Pop the last element of a list, as Python `list.pop()` does; `none`
models the `IndexError` raised on an empty list. -/
def listPop (l : List Card) : Option (Card × List Card) :=
  match l.getLast? with
  | none => none
  | some c => some (c, l.dropLast)

/-- Embedding of `Deck.deal`: `[self.cards.pop() for _ in range(num_cards)]`.
The deck is the `cards` list; dealing pops from the end `n` times.  On an
empty deck the pop raises, the partial result list is discarded, and the
cards already popped stay removed: the error carries the deck as it is at
the moment of the raise. -/
def deal (cards : List Card) (n : Nat) : Except (List Card) (List Card × List Card) :=
  match n with
  | 0 => .ok ([], cards)
  | n + 1 =>
    match listPop cards with
    | none => .error cards
    | some (c, rest) =>
      match deal rest n with
      | .ok (dealt, final) => .ok (c :: dealt, final)
      | .error f => .error f

lemma deal_ok (cards : List Card) (n : Nat) (h : n ≤ cards.length) :
    deal cards n = .ok ((cards.drop (cards.length - n)).reverse,
                        cards.take (cards.length - n)) := by
  induction n generalizing cards with
  | zero => simp [deal]
  | succ n ih =>
    match hc : cards with
    | [] => simp at h
    | a :: as =>
      have hne : a :: as ≠ [] := by simp
      have hlast : (a :: as).getLast? = some ((a :: as).getLast hne) := by
        exact List.getLast?_eq_getLast _ hne
      have hsplit : (a :: as).dropLast ++ [(a :: as).getLast hne] = a :: as :=
        List.dropLast_append_getLast hne
      have hlen : (a :: as).dropLast.length = as.length := by
        simp [List.length_dropLast]
      have hlen2 : (a :: as).length = as.length + 1 := by simp
      have hn : n ≤ (a :: as).dropLast.length := by
        rw [hlen]; omega
      have ihd := ih ((a :: as).dropLast) hn
      simp only [deal, listPop, hlast, ihd, Except.ok.injEq, Prod.mk.injEq]
      have harith : (a :: as).dropLast.length - n = (a :: as).length - (n + 1) := by
        rw [hlen, hlen2]; omega
      have hk : (a :: as).length - (n + 1) ≤ (a :: as).dropLast.length := by
        rw [hlen, hlen2]; omega
      constructor
      · rw [harith]
        have hd := @List.drop_append_of_le_length Card ((a :: as).dropLast)
          [(a :: as).getLast hne] ((a :: as).length - (n + 1)) hk
        rw [hsplit] at hd
        rw [hd]
        simp
      · rw [harith]
        have ht := @List.take_append_of_le_length Card ((a :: as).dropLast)
          [(a :: as).getLast hne] ((a :: as).length - (n + 1)) hk
        rw [hsplit] at ht
        rw [ht]

lemma deal_err (cards : List Card) (n : Nat) (h : cards.length < n) :
    deal cards n = .error [] := by
  induction n generalizing cards with
  | zero => omega
  | succ n ih =>
    match cards with
    | [] => simp [deal, listPop]
    | a :: as =>
      have hne : a :: as ≠ [] := by simp
      have hlast : (a :: as).getLast? = some ((a :: as).getLast hne) :=
        List.getLast?_eq_getLast _ hne
      have hlt : (a :: as).dropLast.length < n := by
        simp only [List.length_dropLast, List.length_cons] at *
        omega
      simp only [deal, listPop, hlast, ih _ hlt]

/-- The `HandProbability` record: eight named rank probabilities.  Python
floats are embedded as rationals (every literal in the source is an exact
decimal). -/
structure HProb where
  straight_flush : ℚ
  four_of_a_kind : ℚ
  full_house : ℚ
  flush : ℚ
  straight : ℚ
  three_of_a_kind : ℚ
  two_pair : ℚ
  pair : ℚ
deriving DecidableEq, Repr

/-- Default 5-card probabilities set by `HandProbability.__init__`. -/
def HandProbability_default : HProb :=
  { straight_flush := 0.0000139
    four_of_a_kind := 0.0002401
    full_house := 0.00144058
    flush := 0.0019654
    straight := 0.00392465
    three_of_a_kind := 0.02112845
    two_pair := 0.04753902
    pair := 0.42256903 }

/-- The all-zero record produced by `_set_all_to_zero`. -/
def HProb.zero : HProb :=
  { straight_flush := 0, four_of_a_kind := 0, full_house := 0, flush := 0
    straight := 0, three_of_a_kind := 0, two_pair := 0, pair := 0 }

/-- The default filter list of `get_delta_probability`, strongest rank
first, exactly as written in the source. -/
def defaultFilter : List HandRank :=
  [.STRAIGHT_FLUSH, .FOUR_OF_A_KIND, .FULL_HOUSE, .FLUSH, .STRAIGHT,
   .THREE_OF_A_KIND, .TWO_PAIR, .PAIR]

/-- Embedding of `get_probability_for_rank`; the trailing `else` raises
`Invalid hand rank`. -/
def get_probability_for_rank (hp : HProb) (r : HandRank) : Except String ℚ :=
  if r = .STRAIGHT_FLUSH then .ok hp.straight_flush
  else if r = .FOUR_OF_A_KIND then .ok hp.four_of_a_kind
  else if r = .FULL_HOUSE then .ok hp.full_house
  else if r = .FLUSH then .ok hp.flush
  else if r = .STRAIGHT then .ok hp.straight
  else if r = .THREE_OF_A_KIND then .ok hp.three_of_a_kind
  else if r = .TWO_PAIR then .ok hp.two_pair
  else if r = .PAIR then .ok hp.pair
  else .error "Invalid hand rank"

/-- The `if hand_rank == ...` assignment cascade in the loop body of
`get_delta_probability`; a rank matching none of the eight arms falls
through without assigning. -/
def setDeltaField (d : HProb) (r : HandRank) (v : ℚ) : HProb :=
  if r = .STRAIGHT_FLUSH then { d with straight_flush := v }
  else if r = .FOUR_OF_A_KIND then { d with four_of_a_kind := v }
  else if r = .FULL_HOUSE then { d with full_house := v }
  else if r = .FLUSH then { d with flush := v }
  else if r = .STRAIGHT then { d with straight := v }
  else if r = .THREE_OF_A_KIND then { d with three_of_a_kind := v }
  else if r = .TWO_PAIR then { d with two_pair := v }
  else if r = .PAIR then { d with pair := v }
  else d

/-- Loop of `get_delta_probability`: for each rank in the filter, store
`self probability - default probability` in the matching field of the
initially all-zero delta record. -/
def deltaLoop (hp : HProb) : List HandRank → HProb → Except String HProb
  | [], d => .ok d
  | r :: rest, d =>
    match get_probability_for_rank HandProbability_default r with
    | .error e => .error e
    | .ok base_v =>
      match get_probability_for_rank hp r with
      | .error e => .error e
      | .ok self_v => deltaLoop hp rest (setDeltaField d r (self_v - base_v))

/-- Embedding of `HandProbability.get_delta_probability`. -/
def get_delta_probability (hp : HProb) (filter : Option (List HandRank)) :
    Except String HProb :=
  deltaLoop hp (filter.getD defaultFilter) HProb.zero

/-- Zeroing pass of `get_delta_probability_sum` when `ignore_negatives`
is true: every negative field is replaced by `0`. -/
def zeroNegatives (d : HProb) : HProb :=
  { straight_flush := if d.straight_flush < 0 then 0 else d.straight_flush
    four_of_a_kind := if d.four_of_a_kind < 0 then 0 else d.four_of_a_kind
    full_house := if d.full_house < 0 then 0 else d.full_house
    flush := if d.flush < 0 then 0 else d.flush
    straight := if d.straight < 0 then 0 else d.straight
    three_of_a_kind := if d.three_of_a_kind < 0 then 0 else d.three_of_a_kind
    two_pair := if d.two_pair < 0 then 0 else d.two_pair
    pair := if d.pair < 0 then 0 else d.pair }

/-- Default weight of a rank: the values of the default weight dictionary,
which coincide with the fallback defaults of each `weights.get` call. -/
def defaultWeight : HandRank → ℚ
  | .STRAIGHT_FLUSH => 1
  | .FOUR_OF_A_KIND => 0.9
  | .FULL_HOUSE => 0.8
  | .FLUSH => 0.7
  | .STRAIGHT => 0.6
  | .THREE_OF_A_KIND => 0.5
  | .TWO_PAIR => 0.4
  | .PAIR => 0.3
  | _ => 0

/-- A weight dictionary lookup `weights.get(rank, default)`: a passed
dictionary is a partial map; `none` for the whole argument means the
default dictionary is used, whose entries equal the fallback defaults. -/
def weightLookup (w : Option (HandRank → Option ℚ)) (r : HandRank) : ℚ :=
  match w with
  | none => defaultWeight r
  | some f => (f r).getD (defaultWeight r)

/-- Embedding of `HandProbability.get_delta_probability_sum`: computes the
delta record, optionally zeroes negatives, then walks the `if/elif` chain
from straight flush down to pair, adding the weighted delta of the first
nonzero field to the running sum `rsum = 0` and skipping all the rest. -/
def get_delta_probability_sum (hp : HProb) (weights : Option (HandRank → Option ℚ))
    (ignore_negatives : Bool) : Except String ℚ :=
  match get_delta_probability hp none with
  | .error e => .error e
  | .ok d0 =>
    let d := if ignore_negatives then zeroNegatives d0 else d0
    .ok (if d.straight_flush ≠ 0 then d.straight_flush * weightLookup weights .STRAIGHT_FLUSH
      else if d.four_of_a_kind ≠ 0 then d.four_of_a_kind * weightLookup weights .FOUR_OF_A_KIND
      else if d.full_house ≠ 0 then d.full_house * weightLookup weights .FULL_HOUSE
      else if d.flush ≠ 0 then d.flush * weightLookup weights .FLUSH
      else if d.straight ≠ 0 then d.straight * weightLookup weights .STRAIGHT
      else if d.three_of_a_kind ≠ 0 then d.three_of_a_kind * weightLookup weights .THREE_OF_A_KIND
      else if d.two_pair ≠ 0 then d.two_pair * weightLookup weights .TWO_PAIR
      else if d.pair ≠ 0 then d.pair * weightLookup weights .PAIR
      else 0)

/-- Field projection of a delta record by rank, used only to state the
specification of the priority scan (ranks outside the eight yield 0). -/
def deltaField (d : HProb) : HandRank → ℚ
  | .STRAIGHT_FLUSH => d.straight_flush
  | .FOUR_OF_A_KIND => d.four_of_a_kind
  | .FULL_HOUSE => d.full_house
  | .FLUSH => d.flush
  | .STRAIGHT => d.straight
  | .THREE_OF_A_KIND => d.three_of_a_kind
  | .TWO_PAIR => d.two_pair
  | .PAIR => d.pair
  | _ => 0

/-- Modelled from the spec wording: iterate ranks from strongest to
weakest and return the weighted value of the first nonzero delta found. -/
def firstNonzeroWeighted (d : HProb) (w : Option (HandRank → Option ℚ)) :
    List HandRank → ℚ
  | [] => 0
  | r :: rest =>
    if deltaField d r ≠ 0 then deltaField d r * weightLookup w r
    else firstNonzeroWeighted d w rest

/-- Modelled from the spec wording: a true weighted sum over all ranks,
what the method name suggests but the code does not compute. -/
def allWeightedSum (d : HProb) (w : Option (HandRank → Option ℚ)) : ℚ :=
  (defaultFilter.map (fun r => deltaField d r * weightLookup w r)).sum

/-- The delta record the sum method works on, after the optional zeroing
pass; stated as a function for reuse in the C2 theorem. -/
def deltaAfterIgnore (hp : HProb) (ignore_negatives : Bool) : HProb :=
  match get_delta_probability hp none with
  | .error _ => HProb.zero
  | .ok d0 => if ignore_negatives then zeroNegatives d0 else d0

/-- Pointwise subtraction of two probability records, field by field. -/
def HProb.pointwiseSub (x y : HProb) : HProb :=
  { straight_flush := x.straight_flush - y.straight_flush
    four_of_a_kind := x.four_of_a_kind - y.four_of_a_kind
    full_house := x.full_house - y.full_house
    flush := x.flush - y.flush
    straight := x.straight - y.straight
    three_of_a_kind := x.three_of_a_kind - y.three_of_a_kind
    two_pair := x.two_pair - y.two_pair
    pair := x.pair - y.pair }

/-- Embedding of `HandProbability.__sub__` over an explicit object store
(references are store indices):  `self.straight_flush -= other.straight_flush`
and so on, one store write per statement, each reading the store produced by
the previous statement, ending with `return self`.  The result is the final
store together with the returned reference. -/
def HandProbability_sub (σ : Nat → HProb) (self other : Nat) : (Nat → HProb) × Nat :=
  let σ1 := Function.update σ self
    { σ self with straight_flush := (σ self).straight_flush - (σ other).straight_flush }
  let σ2 := Function.update σ1 self
    { σ1 self with four_of_a_kind := (σ1 self).four_of_a_kind - (σ1 other).four_of_a_kind }
  let σ3 := Function.update σ2 self
    { σ2 self with full_house := (σ2 self).full_house - (σ2 other).full_house }
  let σ4 := Function.update σ3 self
    { σ3 self with flush := (σ3 self).flush - (σ3 other).flush }
  let σ5 := Function.update σ4 self
    { σ4 self with straight := (σ4 self).straight - (σ4 other).straight }
  let σ6 := Function.update σ5 self
    { σ5 self with three_of_a_kind := (σ5 self).three_of_a_kind - (σ5 other).three_of_a_kind }
  let σ7 := Function.update σ6 self
    { σ6 self with two_pair := (σ6 self).two_pair - (σ6 other).two_pair }
  let σ8 := Function.update σ7 self
    { σ7 self with pair := (σ7 self).pair - (σ7 other).pair }
  (σ8, self)

/-- C9: evaluating `a - b` on two `HandProbability` objects mutates `a` in
place (each of the eight rank fields of `a` becomes its old value minus the
corresponding field of `b`) and returns the object `a` itself: the final
store is the initial store with exactly the cell of `a` overwritten by the
pointwise difference of the old contents of `a` and `b`, and the returned
reference is `a`.  This holds for the aliased call `a - a` as well. -/
theorem HandProbability_sub_mutates_self (σ : Nat → HProb) (a b : Nat) :
    HandProbability_sub σ a b =
      (Function.update σ a (HProb.pointwiseSub (σ a) (σ b)), a) := by
  by_cases h : a = b
  · subst h
    simp only [HandProbability_sub, Function.update_idem, Function.update_same,
      HProb.pointwiseSub]
  · have hba : ¬ b = a := fun hh => h hh.symm
    simp only [HandProbability_sub, Function.update_idem, Function.update_same,
      Function.update_noteq hba, HProb.pointwiseSub]

/-- C10: `Deck.deal(n)` on a deck of at least `n` cards removes exactly the
last `n` cards and returns them last-to-first, leaving the first
`length - n` cards; on a deck of fewer than `n` cards it raises, and the
cards popped before the failure are not restored (the deck is left empty). -/
theorem deal_pops_last_n (cards : List Card) (n : Nat) :
    (n ≤ cards.length →
      deal cards n = .ok ((cards.drop (cards.length - n)).reverse,
                          cards.take (cards.length - n))) ∧
    (cards.length < n → deal cards n = .error []) :=
  ⟨deal_ok cards n, deal_err cards n⟩

/-- Witness for C10 at two concrete decks: a successful deal of 2 from a
3-card deck, and a failing deal of 2 from a 1-card deck. -/
theorem deal_pops_last_n_witness :
    deal [⟨2, 1⟩, ⟨3, 1⟩, ⟨4, 1⟩] 2 = .ok ([⟨4, 1⟩, ⟨3, 1⟩], [⟨2, 1⟩]) ∧
    deal [⟨2, 1⟩] 2 = .error [] := by
  constructor
  · exact ((deal_pops_last_n [⟨2, 1⟩, ⟨3, 1⟩, ⟨4, 1⟩] 2).1 (by decide)).trans rfl
  · exact (deal_pops_last_n [⟨2, 1⟩] 2).2 (by decide)

/-- A concrete probability record whose straight-flush and pair deltas
against the defaults are both exactly 1 and whose other deltas are 0. -/
def hp_C2 : HProb :=
  { straight_flush := 1.0000139
    four_of_a_kind := 0.0002401
    full_house := 0.00144058
    flush := 0.0019654
    straight := 0.00392465
    three_of_a_kind := 0.02112845
    two_pair := 0.04753902
    pair := 1.42256903 }

/-- C2: `get_delta_probability_sum` returns the weighted value of the
single strongest-ranked nonzero delta, scanning ranks from straight flush
down to pair and stopping at the first nonzero entry (negative deltas are
zeroed first when `ignore_negatives` is true); and it is not the sum of all
weighted deltas, as witnessed by a probability record whose straight-flush
and pair deltas are both 1. -/
theorem get_delta_probability_sum_first_nonzero :
    (∀ (hp : HProb) (w : Option (HandRank → Option ℚ)) (ig : Bool),
      get_delta_probability_sum hp w ig =
        .ok (firstNonzeroWeighted (deltaAfterIgnore hp ig) w defaultFilter)) ∧
    (∃ hp : HProb,
      firstNonzeroWeighted (deltaAfterIgnore hp true) none defaultFilter ≠
        allWeightedSum (deltaAfterIgnore hp true) none) := by
  constructor
  · intro hp w ig
    cases ig <;> rfl
  · refine ⟨hp_C2, ?_⟩
    have hD : deltaAfterIgnore hp_C2 true =
        { straight_flush := 1, four_of_a_kind := 0, full_house := 0, flush := 0
          straight := 0, three_of_a_kind := 0, two_pair := 0, pair := 1 } := by
      show zeroNegatives
        { straight_flush := (1.0000139 : ℚ) - 0.0000139
          four_of_a_kind := (0.0002401 : ℚ) - 0.0002401
          full_house := (0.00144058 : ℚ) - 0.00144058
          flush := (0.0019654 : ℚ) - 0.0019654
          straight := (0.00392465 : ℚ) - 0.00392465
          three_of_a_kind := (0.02112845 : ℚ) - 0.02112845
          two_pair := (0.04753902 : ℚ) - 0.04753902
          pair := (1.42256903 : ℚ) - 0.42256903 } = _
      norm_num [zeroNegatives, HProb.mk.injEq]
    rw [hD]
    norm_num [firstNonzeroWeighted, allWeightedSum, deltaField, weightLookup,
      defaultWeight, defaultFilter]

/-- Insert a card into an already sorted list, after any card of equal or
lower rank, reproducing the stability of the Python `list.sort` (equal
elements keep their relative order when inserted left to right). -/
def insertByRank (x : Card) : List Card → List Card
  | [] => [x]
  | h :: t => if h.rank ≤ x.rank then h :: insertByRank x t else x :: h :: t

/-- Stable sort by ascending rank, embedding `tmp.sort(key=...rank.value)`:
cards are inserted left to right, each after all earlier equals. -/
def sortCards (l : List Card) : List Card :=
  l.foldl (fun acc x => insertByRank x acc) []

lemma insertByRank_perm (x : Card) (l : List Card) :
    (insertByRank x l).Perm (x :: l) := by
  induction l with
  | nil => simp [insertByRank]
  | cons h t ih =>
    by_cases hc : h.rank ≤ x.rank
    · simp only [insertByRank, if_pos hc]
      exact (ih.cons h).trans (List.Perm.swap x h t)
    · simp only [insertByRank, if_neg hc]
      exact List.Perm.refl _

lemma sortCards_aux_perm (l acc : List Card) :
    (l.foldl (fun acc x => insertByRank x acc) acc).Perm (acc ++ l) := by
  induction l generalizing acc with
  | nil => simp
  | cons x t ih =>
    simp only [List.foldl_cons]
    have h1 := ih (insertByRank x acc)
    have h2 : (insertByRank x acc ++ t).Perm ((x :: acc) ++ t) :=
      (insertByRank_perm x acc).append_right t
    have h3 : ((x :: acc) ++ t).Perm (acc ++ x :: t) := List.perm_middle.symm
    exact h1.trans (h2.trans h3)

lemma sortCards_perm (l : List Card) : (sortCards l).Perm l := by
  simpa using sortCards_aux_perm l []

/-- The adjacent-pairs scan of `score_5_or_7_card_hand`, iterating `i` over
consecutive positions of the sorted list with state
`(pair_count, significant_high_card, winning_cards)`.  On the first
equal-rank pair the state becomes `(1, tmp[i], [tmp[i], tmp[i+1]])` and the
same iteration then hits the `pair_count == 1` branch whose
`tmp[i+1].rank == significant.rank` test is true, so it continues; a later
pair of the same rank as the significant card is skipped (three or four of
a kind), a pair of a different rank moves to state 2 and appends both
cards; in state 2 nothing further changes. -/
def pairScan (pc : Nat) (shc : Card) (win : List Card) :
    List Card → Nat × Card × List Card
  | x :: y :: rest =>
    if x.rank = y.rank then
      if pc = 0 then pairScan 1 x [x, y] (y :: rest)
      else if pc = 1 then
        if y.rank = shc.rank then pairScan 1 shc win (y :: rest)
        else pairScan 2 shc (win ++ [x, y]) (y :: rest)
      else pairScan pc shc win (y :: rest)
    else pairScan pc shc win (y :: rest)
  | _ => (pc, shc, win)

/-- The three-of-a-kind scan: first window of three consecutive equal
ranks in the sorted list (the loop breaks on the first hit); the
significant high card becomes the third card of the window. -/
def toakScan : List Card → Option (Card × Card × Card)
  | x :: y :: z :: rest =>
    if x.rank = y.rank ∧ y.rank = z.rank then some (x, y, z)
    else toakScan (y :: z :: rest)
  | _ => none

/-- Deduplication by rank keeping first occurrences, as the
`unique_rank_values` loop of the straight check builds it. -/
def uniqueByRank (seen : List Nat) : List Card → List Card
  | [] => []
  | c :: rest =>
    if c.rank ∈ seen then uniqueByRank seen rest
    else c :: uniqueByRank (seen ++ [c.rank]) rest

/-- The straight check: on the rank-deduplicated sorted list, find the
first window of five cards whose four consecutive rank distances are all
1 (the `[1, 1, 1, 1]` pattern match over the distance list). -/
def straightFind : List Card → Option (List Card)
  | a :: b :: c :: d :: e :: rest =>
    if (b.rank : Int) - a.rank = 1 ∧ (c.rank : Int) - b.rank = 1 ∧
       (d.rank : Int) - c.rank = 1 ∧ (e.rank : Int) - d.rank = 1
    then some [a, b, c, d, e]
    else straightFind (b :: c :: d :: e :: rest)
  | _ => none

/-- The flush check: iterate suits in enum order, and return the cards of
the first suit holding at least five of the sorted hand (loop breaks). -/
def flushGo (tmp : List Card) : List Nat → Option (List Card)
  | [] => none
  | s :: rest =>
    let check := tmp.filter (fun c => c.suit = s)
    if 5 ≤ check.length then some check else flushGo tmp rest

/-- Flush check over the four suits `HEARTS, DIAMONDS, CLUBS, SPADES`. -/
def flushFind (tmp : List Card) : Option (List Card) :=
  flushGo tmp [HEARTS, DIAMONDS, CLUBS, SPADES]

/-- The full-house remainder scan: count every adjacent equal-rank hit in
the triple-free remainder (the loop has no break, so runs of three count
twice) and collect the appended card pairs in loop order. -/
def fhScan : List Card → Nat × List Card
  | x :: y :: rest =>
    let r := fhScan (y :: rest)
    if x.rank = y.rank then (r.1 + 1, x :: y :: r.2) else r
  | _ => (0, [])

/-- All windows of four consecutive cards of the sorted list, in loop
order, for the four-of-a-kind check. -/
def windows4 : List Card → List (List Card)
  | a :: b :: c :: d :: rest => [a, b, c, d] :: windows4 (b :: c :: d :: rest)
  | _ => []

/-- Does a window consist of four equal ranks? -/
def allEqual4 : List Card → Bool
  | [a, b, c, d] => a.rank = b.rank ∧ b.rank = c.rank ∧ c.rank = d.rank
  | _ => false

/-- The matching four-of-a-kind windows; the loop has no break, so a rank
is appended per hit and the last hit wins the state fields. -/
def fourMatches (tmp : List Card) : List (List Card) :=
  (windows4 tmp).filter allEqual4

/-- The straight-flush uniformity test: the `for ... else` loop succeeds
when every card of the straight run has the suit of the first one (and
vacuously on an empty run). -/
def sameSuitRun : List Card → Bool
  | [] => true
  | h :: t => (h :: t).all (fun c => c.suit = h.suit)

/-- Hand ranks appended to the `ranks` list by each phase, concatenated in
program order: high card always; `PAIR`/`TWO_PAIR` by final pair count;
`THREE_OF_A_KIND` if the scan hit; `STRAIGHT`, `FLUSH` if found; one
`FULL_HOUSE` per remainder hit (the loop appends each time); one
`FOUR_OF_A_KIND` per matching window; `STRAIGHT_FLUSH` if uniform. -/
def ranksList (pc : Nat) (toakB stB flB : Bool) (fhK foK : Nat) (sfB : Bool) :
    List HandRank :=
  [HandRank.HIGH_CARD]
    ++ (if pc = 1 then [HandRank.PAIR]
        else if pc = 2 then [HandRank.PAIR, HandRank.TWO_PAIR] else [])
    ++ (if toakB then [HandRank.THREE_OF_A_KIND] else [])
    ++ (if stB then [HandRank.STRAIGHT] else [])
    ++ (if flB then [HandRank.FLUSH] else [])
    ++ List.replicate fhK HandRank.FULL_HOUSE
    ++ List.replicate foK HandRank.FOUR_OF_A_KIND
    ++ (if sfB then [HandRank.STRAIGHT_FLUSH] else [])

/-- The hand rank after the pair, three-of-a-kind, straight and flush
phases have each overwritten it in turn; the full-house check is gated on
this value being exactly `THREE_OF_A_KIND`. -/
def rankAfterFlush (pc : Nat) (toakB stB flB : Bool) : HandRank :=
  let r1 := if pc = 1 then HandRank.PAIR
            else if pc = 2 then HandRank.TWO_PAIR else HandRank.HIGH_CARD
  let r2 := if toakB then HandRank.THREE_OF_A_KIND else r1
  let r3 := if stB then HandRank.STRAIGHT else r2
  if flB then HandRank.FLUSH else r3

/-- The mutable evaluation state of a `Hand` object. -/
structure HandS where
  cards : List Card
  hand_rank : HandRank
  straight_cards : List Card
  winning_cards : List Card
  significant_high_card : Option Card
deriving DecidableEq, Repr

/-- A `Hand` as `reset_hand` leaves it, then loaded with `add_cards`. -/
def freshHand (cards : List Card) : HandS :=
  { cards := cards, hand_rank := .INITIAL, straight_cards := []
    winning_cards := [], significant_high_card := none }

/-- Embedding of `Hand.score_5_or_7_card_hand`.  The cards are copied
and sorted; `none` models the `IndexError` of `tmp[-1]` on an empty hand.
Phases run in program order, each overwriting `hand_rank`,
`significant_high_card` and `winning_cards` as the source does; the
full-house check runs only while the current rank is still
`THREE_OF_A_KIND` and scans the sorted list with the triple rank removed.
The returned list collects every appended rank in order, and the state
keeps the original unsorted `cards`. -/
def score_5_or_7_card_hand (h : HandS) : Option (List HandRank × HandS) :=
  let tmp := sortCards h.cards
  match tmp.getLast? with
  | none => none
  | some hc =>
    let P := pairScan 0 hc (h.winning_cards ++ [hc]) tmp
    let T := toakScan tmp
    let S := straightFind (uniqueByRank [] tmp)
    let F := flushFind tmp
    let r4 := rankAfterFlush P.1 T.isSome S.isSome F.isSome
    let shc2 := match T with | some (_, _, z) => z | none => P.2.1
    let toakCards : List Card := match T with
      | some (x, y, z) => [x, y, z]
      | none => []
    let FH := if r4 = HandRank.THREE_OF_A_KIND then
        fhScan (tmp.filter (fun c => ¬ c.rank = shc2.rank))
      else (0, [])
    let W4 := fourMatches tmp
    let sfB : Bool := match S with
      | some sc => F.isSome && sameSuitRun sc
      | none => false
    let ranks := ranksList P.1 T.isSome S.isSome F.isSome FH.1 W4.length sfB
    let win2 := match T with | some (x, y, z) => [x, y, z] | none => P.2.2
    let win3 := match S with | some sc => sc | none => win2
    let win4 := match F with | some ck => ck | none => win3
    let win5 := if r4 = HandRank.THREE_OF_A_KIND ∧ 0 < FH.1
      then toakCards ++ FH.2 else win4
    let win6 := match W4.getLast? with | some w => w | none => win5
    let scardsF := match S with | some sc => sc | none => h.straight_cards
    let win7 := if sfB then scardsF else win6
    let shcF := match W4.getLast? with
      | some (c :: _) => c
      | _ => shc2
    let r5 := if r4 = HandRank.THREE_OF_A_KIND ∧ 0 < FH.1
      then HandRank.FULL_HOUSE else r4
    let r6 := if W4 = [] then r5 else HandRank.FOUR_OF_A_KIND
    let r7 := if sfB then HandRank.STRAIGHT_FLUSH else r6
    some (ranks,
      { cards := h.cards, hand_rank := r7, straight_cards := scardsF
        winning_cards := win7, significant_high_card := some shcF })

/-- Count how many cards of the list have the given rank, as the
`for card in hand.cards: if card.rank.value == hcv` loop does. -/
def countRank (r : Nat) (cards : List Card) : Nat :=
  cards.countP (fun c => c.rank = r)

/-- All 2-element combinations in `itertools.combinations` order. -/
def combinations2 : List Card → List (List Card)
  | [] => []
  | x :: rest => rest.map (fun y => [x, y]) ++ combinations2 rest

/-- All 3-element combinations in `itertools.combinations` order. -/
def combinations3 : List Card → List (List Card)
  | [] => []
  | x :: rest => (combinations2 rest).map (fun p => x :: p) ++ combinations3 rest

/-- Python `max` over hand ranks, comparing with `__gt__` on the enum
value: the first element among those of maximal value. -/
def pymaxRank : List HandRank → Option HandRank
  | [] => none
  | h :: t => some (t.foldl (fun acc x => if acc.val < x.val then x else acc) h)

/-- Python `max` over cards, comparing with `__gt__` on the rank value. -/
def pymaxCard : List Card → Option Card
  | [] => none
  | h :: t => some (t.foldl (fun acc x => if acc.rank < x.rank then x else acc) h)

/-- A poker player as the showdown inspects it: name, pocket cards,
folded flag. -/
structure PPlayer where
  name : String
  cards_in_hand : List Card
  folded : Bool
deriving DecidableEq, Repr

/-- One element of the `player_hands` list built by
`get_winning_player_list`: `[<player>, <HandRank>, <CardRank>, <Hand>]`. -/
structure Entry where
  player : PPlayer
  rank : HandRank
  hc : Card
  hand : HandS
deriving DecidableEq, Repr

/-- Error outcomes of the showdown, each modelling a raised exception. -/
inductive PokerErr where
  | notEnoughPlayers
  | indexErr
  | scoreErr
  | tie (a b : String)
deriving DecidableEq, Repr

/-- The per-player combination loop of `get_winning_player_list`: for each
5-card candidate (pocket pair then table triplet, in nested loop order)
score a fresh hand and keep the first candidate whose maximal achieved
rank strictly exceeds the running rank (`INITIAL`, value 0, when nothing
is kept yet).  `scoreErr` models the exceptions an empty candidate or an
empty winning-card list would raise; neither occurs on 5-card inputs. -/
def bestLoop (p : PPlayer) (run : Option Entry) :
    List (List Card) → Except PokerErr (Option Entry)
  | [] => .ok run
  | c5 :: rest =>
    match score_5_or_7_card_hand (freshHand c5) with
    | none => .error .scoreErr
    | some (ranks, h2) =>
      match pymaxRank ranks, pymaxCard h2.winning_cards with
      | some hr, some hcd =>
        let rr := match run with | none => HandRank.INITIAL.val | some e => e.rank.val
        if rr < hr.val then
          bestLoop p (some { player := p, rank := hr, hc := hcd, hand := h2 }) rest
        else bestLoop p run rest
      | _, _ => .error .scoreErr

/-- The candidate list of a player: every pocket 2-combination joined
with every table 3-combination, in nested loop order. -/
def candidates (table_cards : List Card) (p : PPlayer) : List (List Card) :=
  (combinations2 p.cards_in_hand).flatMap
    (fun pr => (combinations3 table_cards).map (fun tr => pr ++ tr))

/-- The best entry of a single player, `none` when no candidate was kept
(no pocket pair or no table triplet exists). -/
def bestFor (table_cards : List Card) (p : PPlayer) :
    Except PokerErr (Option Entry) :=
  bestLoop p none (candidates table_cards p)

/-- The `player_hands` list: non-folded players contribute their best
entry, in seat order. -/
def computeEntries (table_cards : List Card) :
    List PPlayer → Except PokerErr (List Entry)
  | [] => .ok []
  | p :: rest =>
    if p.folded then computeEntries table_cards rest
    else
      match bestFor table_cards p with
      | .error e => .error e
      | .ok oe =>
        match computeEntries table_cards rest with
        | .error e => .error e
        | .ok es =>
          .ok (match oe with | some e => e :: es | none => es)

/-- The winner-selection loop over `player_hands[1:]`, carried state
`(winning_player_l, tie_l)`: a strictly higher rank or an equal rank with
a strictly higher tie-break card replaces the winner and clears the tie;
an exact tie on rank and tie-break card either (for a full house) replaces
the winner when the tie-break rank occurs exactly 3 times in the
challenger hand — leaving any pending tie untouched — or (for any other
rank) records the challenger as the pending tie. -/
def selLoop (w : Entry) (t : Option Entry) : List Entry → Entry × Option Entry
  | [] => (w, t)
  | l :: rest =>
    if w.rank.val < l.rank.val then selLoop l none rest
    else if l.rank.val = w.rank.val ∧ w.hc.rank < l.hc.rank then selLoop l none rest
    else if l.rank.val = w.rank.val ∧ l.hc.rank = w.hc.rank then
      if l.rank.val = HandRank.FULL_HOUSE.val then
        if countRank l.hc.rank l.hand.cards = 3 then selLoop l t rest
        else selLoop w t rest
      else selLoop w (some l) rest
    else selLoop w t rest

/-- The final selection of `get_winning_player_list`: seed with
`player_hands[0]` (an empty list raises `IndexError`), run the loop, and
raise the tie exception when a tie is pending, else return the winner. -/
def select_winner : List Entry → Except PokerErr Entry
  | [] => .error .indexErr
  | w :: rest =>
    let R := selLoop w none rest
    match R.2 with
    | some tl => .error (.tie R.1.player.name tl.player.name)
    | none => .ok R.1

/-- Embedding of `PokerTable.get_winning_player_list`: guard on at least
two players, build the per-player best entries, then select. -/
def get_winning_player_list (table_cards : List Card) (players : List PPlayer) :
    Except PokerErr Entry :=
  if players.length < 2 then .error .notEnoughPlayers
  else
    match computeEntries table_cards players with
    | .error e => .error e
    | .ok entries => select_winner entries

lemma countRank_cons_le (r : Nat) (x : Card) (l : List Card) :
    countRank r l ≤ countRank r (x :: l) := by
  simp only [countRank, List.countP_cons]
  omega

lemma countRank_pair_head (x y : Card) (l : List Card) (h : x.rank = y.rank) :
    2 ≤ countRank x.rank (x :: y :: l) := by
  simp only [countRank, List.countP_cons, h]
  simp

lemma pairScan_one_two (l : List Card) :
    ∀ (shc : Card) (win : List Card), (pairScan 1 shc win l).1 = 2 →
      ∃ r, r ≠ shc.rank ∧ 2 ≤ countRank r l := by
  induction l with
  | nil => intro shc win h; simp [pairScan] at h
  | cons x l2 ih =>
    intro shc win h
    match l2 with
    | [] => simp [pairScan] at h
    | y :: rest =>
      by_cases hxy : x.rank = y.rank
      · by_cases hys : y.rank = shc.rank
        · rw [pairScan, if_pos hxy] at h
          simp only [if_neg (by omega : ¬ (1 : Nat) = 0), if_pos rfl, if_pos hys] at h
          obtain ⟨r, hr, hc⟩ := ih shc win h
          exact ⟨r, hr, le_trans hc (countRank_cons_le r x (y :: rest))⟩
        · refine ⟨x.rank, ?_, countRank_pair_head x y rest hxy⟩
          rw [hxy]; exact hys
      · rw [pairScan, if_neg hxy] at h
        obtain ⟨r, hr, hc⟩ := ih shc win h
        exact ⟨r, hr, le_trans hc (countRank_cons_le r x (y :: rest))⟩

lemma pairScan_zero_two (l : List Card) :
    ∀ (shc : Card) (win : List Card), (pairScan 0 shc win l).1 = 2 →
      ∃ r1 r2, r1 ≠ r2 ∧ 2 ≤ countRank r1 l ∧ 2 ≤ countRank r2 l := by
  induction l with
  | nil => intro shc win h; simp [pairScan] at h
  | cons x l2 ih =>
    intro shc win h
    match l2 with
    | [] => simp [pairScan] at h
    | y :: rest =>
      by_cases hxy : x.rank = y.rank
      · rw [pairScan, if_pos hxy, if_pos rfl] at h
        obtain ⟨r, hr, hc⟩ := pairScan_one_two (y :: rest) x [x, y] h
        refine ⟨x.rank, r, fun he => hr he.symm, countRank_pair_head x y rest hxy,
          le_trans hc (countRank_cons_le r x (y :: rest))⟩
      · rw [pairScan, if_neg hxy] at h
        obtain ⟨r1, r2, hne, hc1, hc2⟩ := ih shc win h
        exact ⟨r1, r2, hne, le_trans hc1 (countRank_cons_le r1 x (y :: rest)),
          le_trans hc2 (countRank_cons_le r2 x (y :: rest))⟩

lemma two_pair_mem_ranksList (pc : Nat) (toakB stB flB : Bool) (fhK foK : Nat)
    (sfB : Bool) :
    HandRank.TWO_PAIR ∈ ranksList pc toakB stB flB fhK foK sfB → pc = 2 := by
  intro h
  simp only [ranksList, List.mem_append] at h
  rcases h with (((((((h | h) | h) | h) | h) | h) | h) | h)
  · simp at h
  · by_cases h1 : pc = 1
    · rw [if_pos h1] at h; simp at h
    · by_cases h2 : pc = 2
      · exact h2
      · rw [if_neg h1, if_neg h2] at h; simp at h
  · split at h <;> simp at h
  · split at h <;> simp at h
  · split at h <;> simp at h
  · rw [List.mem_replicate] at h
    exact absurd h.2 (by decide)
  · rw [List.mem_replicate] at h
    exact absurd h.2 (by decide)
  · split at h <;> simp at h

/-- The rank list returned by scoring a freshly reset hand loaded with the
given cards (empty on the raise path of an empty hand). -/
def scoreRanks (cards : List Card) : List HandRank :=
  match score_5_or_7_card_hand (freshHand cards) with
  | some (ranks, _) => ranks
  | none => []

lemma countRank_perm {l1 l2 : List Card} (h : l1.Perm l2) (r : Nat) :
    countRank r l1 = countRank r l2 :=
  h.countP_eq _

/-- C8: `TWO_PAIR` appears in the rank list returned by
`score_5_or_7_card_hand` for a 5- or 7-card hand only when two distinct
ranks each occur at least twice among the cards; in particular a third
card of an already-counted pair rank (a three-of-a-kind) is never counted
as the second pair. -/
theorem score_two_pair_needs_two_ranks (cards : List Card)
    (_hlen : cards.length = 5 ∨ cards.length = 7)
    (htp : HandRank.TWO_PAIR ∈ scoreRanks cards) :
    ∃ r1 r2, r1 ≠ r2 ∧ 2 ≤ countRank r1 cards ∧ 2 ≤ countRank r2 cards := by
  rcases hgl : (sortCards cards).getLast? with _ | hc
  · simp only [scoreRanks, score_5_or_7_card_hand, freshHand, hgl] at htp
    simp at htp
  · simp only [scoreRanks, score_5_or_7_card_hand, freshHand, hgl] at htp
    have hpc := two_pair_mem_ranksList _ _ _ _ _ _ _ htp
    obtain ⟨r1, r2, hne, hc1, hc2⟩ :=
      pairScan_zero_two (sortCards cards) hc _ hpc
    have hperm := sortCards_perm cards
    exact ⟨r1, r2, hne, countRank_perm hperm r1 ▸ hc1,
      countRank_perm hperm r2 ▸ hc2⟩

/-- Witness for C8 at the concrete two-pair hand 4 4 7 7 9. -/
theorem score_two_pair_needs_two_ranks_witness :
    ∃ r1 r2, r1 ≠ r2 ∧
      2 ≤ countRank r1 [⟨4, 1⟩, ⟨4, 2⟩, ⟨7, 1⟩, ⟨7, 2⟩, ⟨9, 1⟩] ∧
      2 ≤ countRank r2 [⟨4, 1⟩, ⟨4, 2⟩, ⟨7, 1⟩, ⟨7, 2⟩, ⟨9, 1⟩] :=
  score_two_pair_needs_two_ranks [⟨4, 1⟩, ⟨4, 2⟩, ⟨7, 1⟩, ⟨7, 2⟩, ⟨9, 1⟩]
    (Or.inl rfl) (by decide)

lemma HandRank.val_ne_fullhouse {r : HandRank} (h : r ≠ HandRank.FULL_HOUSE) :
    r.val ≠ HandRank.FULL_HOUSE.val := by
  cases r
  case FULL_HOUSE => exact absurd rfl h
  all_goals decide

lemma selLoop_all_tied (l : List Entry) :
    ∀ (w : Entry) (t : Option Entry), l ≠ [] →
      (∀ e ∈ l, e.rank.val = w.rank.val ∧ e.hc.rank = w.hc.rank) →
      w.rank.val ≠ HandRank.FULL_HOUSE.val →
      ((selLoop w t l).2).isSome = true := by
  induction l with
  | nil => intro w t hne _ _; exact absurd rfl hne
  | cons x rest ih =>
    intro w t _ hall hfh
    obtain ⟨hx1, hx2⟩ := hall x (List.mem_cons_self x rest)
    have c1 : ¬ w.rank.val < x.rank.val := by omega
    have c2 : ¬ (x.rank.val = w.rank.val ∧ w.hc.rank < x.hc.rank) := by
      rintro ⟨-, hlt⟩; omega
    have c3 : x.rank.val = w.rank.val ∧ x.hc.rank = w.hc.rank := ⟨hx1, hx2⟩
    have c4 : ¬ x.rank.val = HandRank.FULL_HOUSE.val := by rw [hx1]; exact hfh
    simp only [selLoop]
    rw [if_neg c1, if_neg c2, if_pos c3, if_neg c4]
    match rest with
    | [] => simp [selLoop]
    | z :: zs =>
      exact ih w (some x) (by simp)
        (fun e he => hall e (List.mem_cons_of_mem x he)) hfh

/-- Does a showdown result model the raised tie exception? -/
def isTie : Except PokerErr Entry → Bool
  | .error (.tie _ _) => true
  | _ => false

/-- The winner name of a showdown result, `none` on any raise. -/
def winnerName : Except PokerErr Entry → Option String
  | .ok e => some e.player.name
  | .error _ => none

/-- Summary of the `player_hands` entries: name, achieved rank value,
tie-break card rank, and the number of cards of that rank in the kept
5-card hand. -/
def entriesSummary : Except PokerErr (List Entry) → List (String × Nat × Nat × Nat)
  | .ok es => es.map (fun e =>
      (e.player.name, e.rank.val, e.hc.rank, countRank e.hc.rank e.hand.cards))
  | .error _ => []

/-- C1 (amended: the tied rank must not be `FULL_HOUSE`; full-house ties
never raise — they are settled by the triple-count check): whenever the
best entries of two or more non-folded players all tie on achieved hand
rank and on tie-break card rank, and the tied rank is not `FULL_HOUSE`,
`get_winning_player_list` raises the unresolved-tie exception rather than
returning a winner. -/
theorem get_winning_player_list_tie_raises (table_cards : List Card)
    (players : List PPlayer) (entries : List Entry) (r : HandRank) (hcv : Nat)
    (hE : computeEntries table_cards players = .ok entries)
    (hlen : 2 ≤ players.length) (hlen2 : 2 ≤ entries.length)
    (hall : ∀ e ∈ entries, e.rank = r ∧ e.hc.rank = hcv)
    (hr : r ≠ HandRank.FULL_HOUSE) :
    isTie (get_winning_player_list table_cards players) = true := by
  unfold get_winning_player_list
  rw [if_neg (by omega), hE]
  match entries, hlen2, hall with
  | e0 :: e1 :: rest2, _, hall =>
    have h0 := hall e0 (by simp)
    have hl : ∀ e ∈ (e1 :: rest2), e.rank.val = e0.rank.val ∧ e.hc.rank = e0.hc.rank := by
      intro e he
      obtain ⟨ha, hb⟩ := hall e (List.mem_cons_of_mem e0 he)
      rw [ha, hb, h0.1, h0.2]
      exact ⟨rfl, rfl⟩
    have hfh : e0.rank.val ≠ HandRank.FULL_HOUSE.val := by
      rw [h0.1]; exact HandRank.val_ne_fullhouse hr
    have hs := selLoop_all_tied (e1 :: rest2) e0 none (by simp) hl hfh
    obtain ⟨tl, htl⟩ := Option.isSome_iff_exists.mp hs
    simp only [select_winner, htl, isTie]

/-- Community cards K K K 2 3 (three kings on the board). -/
def tblC1 : List Card := [⟨13, 4⟩, ⟨13, 1⟩, ⟨13, 2⟩, ⟨2, 3⟩, ⟨3, 3⟩]

/-- Seat A holding a pair of queens. -/
def pA : PPlayer := ⟨"A", [⟨12, 4⟩, ⟨12, 1⟩], false⟩

/-- Seat B holding a pair of jacks. -/
def pB : PPlayer := ⟨"B", [⟨11, 4⟩, ⟨11, 1⟩], false⟩

/-- Counterexample to C1 as stated: on board K K K 2 3 both seats achieve
a full house whose tie-break card is a king, and the king occurs 3 times
in both kept hands, so the tie is not the triple-versus-pair situation
the full-house rule discriminates; yet `get_winning_player_list` does not
raise — it silently returns seat B (the weaker full house, kings over
jacks, beating kings over queens). -/
theorem get_winning_player_list_fullhouse_tie_not_raised :
    entriesSummary (computeEntries tblC1 [pA, pB]) =
      [("A", 7, 13, 3), ("B", 7, 13, 3)] ∧
    winnerName (get_winning_player_list tblC1 [pA, pB]) = some "B" :=
  ⟨rfl, rfl⟩

/-- Community cards 4 6 8 9 J of mixed suits. -/
def tblW : List Card := [⟨4, 4⟩, ⟨6, 2⟩, ⟨8, 3⟩, ⟨9, 2⟩, ⟨11, 3⟩]

/-- Seat C holding 2 and ace, pairing nothing. -/
def pC : PPlayer := ⟨"C", [⟨2, 1⟩, ⟨14, 1⟩], false⟩

/-- Seat D holding 3 and ace, pairing nothing. -/
def pD : PPlayer := ⟨"D", [⟨3, 1⟩, ⟨14, 2⟩], false⟩

/-- The entries computed for the witness scenario. -/
def entriesW : List Entry :=
  match computeEntries tblW [pC, pD] with
  | .ok es => es
  | .error _ => []

/-- Witness for the amended C1: both seats tie on `HIGH_CARD` with
tie-break rank 14, and the showdown raises the tie exception. -/
theorem get_winning_player_list_tie_raises_witness :
    isTie (get_winning_player_list tblW [pC, pD]) = true :=
  get_winning_player_list_tie_raises tblW [pC, pD] entriesW
    HandRank.HIGH_CARD 14 rfl (by decide) (by decide) (by decide) (by decide)

/-- C7: in a showdown comparison of two entries that tie on rank
`FULL_HOUSE` and on tie-break card rank, where the tie-break rank occurs
exactly 3 times in one kept hand (the triple side) and exactly 2 times in
the other (the pair side), the triple-side entry is selected as the
winner in either comparison order, and no tie is raised. -/
theorem full_house_triple_side_wins (e1 e2 : Entry)
    (h1 : e1.rank = HandRank.FULL_HOUSE) (h2 : e2.rank = HandRank.FULL_HOUSE)
    (hhc : e1.hc.rank = e2.hc.rank)
    (hk1 : countRank e1.hc.rank e1.hand.cards = 3)
    (hk2 : countRank e2.hc.rank e2.hand.cards = 2) :
    select_winner [e1, e2] = .ok e1 ∧ select_winner [e2, e1] = .ok e1 := by
  constructor
  · rw [hhc] at hk1
    simp [select_winner, selLoop, h1, h2, hhc, hk2, HandRank.val]
  · rw [hhc] at hk1
    simp [select_winner, selLoop, h1, h2, hhc, hk1, HandRank.val]

/-- Triple-side entry: full house kings over queens, kept hand K K K Q Q. -/
def e1W : Entry :=
  ⟨⟨"T", [], false⟩, HandRank.FULL_HOUSE, ⟨13, 4⟩,
    ⟨[⟨13, 4⟩, ⟨13, 1⟩, ⟨13, 2⟩, ⟨12, 1⟩, ⟨12, 2⟩],
      HandRank.FULL_HOUSE, [], [], none⟩⟩

/-- Pair-side entry: full house jacks over kings, kept hand J J J K K. -/
def e2W : Entry :=
  ⟨⟨"U", [], false⟩, HandRank.FULL_HOUSE, ⟨13, 3⟩,
    ⟨[⟨11, 1⟩, ⟨11, 2⟩, ⟨11, 3⟩, ⟨13, 4⟩, ⟨13, 3⟩],
      HandRank.FULL_HOUSE, [], [], none⟩⟩

/-- Witness for C7 at the concrete pair of full-house entries. -/
theorem full_house_triple_side_wins_witness :
    select_winner [e1W, e2W] = .ok e1W ∧ select_winner [e2W, e1W] = .ok e1W :=
  full_house_triple_side_wins e1W e2W rfl rfl rfl (by decide) (by decide)

/-- A seat as the round-progression logic sees it. -/
structure TPlayer where
  name : String
  chips : Int
  folded : Bool
deriving DecidableEq, Repr

/-- The table fields touched by
`_check_players_left_reset_round_and_progress_game`. -/
structure TblState where
  betting_order : List TPlayer
  pot : Int
  betting_round : Nat
  current_table_bet : Int
  human_has_bet : Bool
deriving DecidableEq, Repr

/-- Terminal signals of the round-progression step: the mass-fold
exception carries the remaining player named in its message and the table
state at the moment of the raise; `indexErr` models `players_left[0]` on
an empty list. -/
inductive GameSignal where
  | massFold (p : TPlayer) (s : TblState)
  | indexErr (s : TblState)
deriving DecidableEq, Repr

/-- Embedding of `_check_for_players_still_in_the_game`: the betting-order
seats that have not folded, in order. -/
def check_for_players_still_in_the_game (s : TblState) : List TPlayer :=
  s.betting_order.filter (fun p => p.folded = false)

/-- Embedding of `_check_players_left_reset_round_and_progress_game`:
reset the betting round, table bet and human-has-bet flag, then either
continue the game through `progress_game` (passed as the continuation it
mutually recurses into) when more than one seat remains, or raise the
`Winner by mass folding!` exception naming `players_left[0]`. -/
def check_players_left_reset_round_and_progress_game
    (progress : String → TblState → Except GameSignal TblState)
    (id : String) (s : TblState) : Except GameSignal TblState :=
  let s1 : TblState :=
    { s with betting_round := 0, current_table_bet := 0, human_has_bet := false }
  let players_left := check_for_players_still_in_the_game s1
  if 1 < players_left.length then progress id s1
  else
    match players_left with
    | [] => .error (.indexErr s1)
    | p :: _ => .error (.massFold p s1)

/-- C4 (amended: the mass-fold terminal is signalled by raising the
mass-fold exception, and the pot is not transferred): when a betting round
completes with exactly one non-folded seat remaining, the progression
raises the distinct mass-fold exception naming that seat — for every
possible continuation, so no showdown is reached — and the state it
carries keeps the pot and every seat (hence every chip stack) unchanged;
the remaining player's chips are not increased by the pot. -/
theorem mass_fold_raises_without_award
    (progress : String → TblState → Except GameSignal TblState)
    (id : String) (s : TblState)
    (h : (check_for_players_still_in_the_game s).length = 1) :
    check_players_left_reset_round_and_progress_game progress id s =
      .error (.massFold ((check_for_players_still_in_the_game s).headD ⟨"", 0, true⟩)
        { s with betting_round := 0, current_table_bet := 0, human_has_bet := false }) ∧
    ((check_for_players_still_in_the_game s).headD ⟨"", 0, true⟩).folded = false ∧
    ((check_for_players_still_in_the_game s).headD ⟨"", 0, true⟩)
      ∈ s.betting_order := by
  have hsame : check_for_players_still_in_the_game
      { s with betting_round := 0, current_table_bet := 0, human_has_bet := false }
      = check_for_players_still_in_the_game s := rfl
  match hpl : check_for_players_still_in_the_game s with
  | [] => rw [hpl] at h; simp at h
  | p :: ps =>
    rw [hpl] at h
    have hps : ps = [] := by
      simp only [List.length_cons] at h
      exact List.eq_nil_of_length_eq_zero (by omega)
    subst hps
    have hmem : p ∈ check_for_players_still_in_the_game s := by
      rw [hpl]; exact List.mem_cons_self p []
    have hmem2 := List.mem_filter.mp hmem
    refine ⟨?_, ?_, ?_⟩
    · unfold check_players_left_reset_round_and_progress_game
      simp [hsame, hpl]
    · simp only [List.headD_cons]
      simpa using hmem2.2
    · simp only [List.headD_cons]
      exact hmem2.1

/-- A trivial continuation standing in for `progress_game`; the mass-fold
branch never invokes it. -/
def progressNoop : String → TblState → Except GameSignal TblState :=
  fun _ s => .ok s

/-- A table about to finish by mass fold: seat A folded with 40 chips,
seat B still in with 80 chips, 50 chips in the pot. -/
def sMassFold : TblState :=
  { betting_order := [⟨"A", 40, true⟩, ⟨"B", 80, false⟩]
    pot := 50, betting_round := 2, current_table_bet := 7, human_has_bet := true }

/-- Witness for the amended C4 at the concrete mass-fold table. -/
theorem mass_fold_raises_without_award_witness :
    check_players_left_reset_round_and_progress_game progressNoop "post flop" sMassFold =
      .error (.massFold ((check_for_players_still_in_the_game sMassFold).headD ⟨"", 0, true⟩)
        { sMassFold with betting_round := 0, current_table_bet := 0, human_has_bet := false }) ∧
    ((check_for_players_still_in_the_game sMassFold).headD ⟨"", 0, true⟩).folded = false ∧
    ((check_for_players_still_in_the_game sMassFold).headD ⟨"", 0, true⟩)
      ∈ sMassFold.betting_order :=
  mass_fold_raises_without_award progressNoop "post flop" sMassFold (by decide)

/-- Counterexample to C4 as stated: in the concrete mass-fold table the
progression does not award the pot to the remaining seat B and terminate
normally — it raises the mass-fold exception, and the state it carries
still shows B with 80 chips (the 50-chip pot was never transferred) and
the pot still at 50. -/
theorem mass_fold_counterexample :
    check_players_left_reset_round_and_progress_game progressNoop "post flop" sMassFold =
      .error (.massFold ⟨"B", 80, false⟩
        { betting_order := [⟨"A", 40, true⟩, ⟨"B", 80, false⟩]
          pot := 50, betting_round := 0, current_table_bet := 0, human_has_bet := false }) :=
  rfl

/-- The human seat as `human_bet` sees it: chip stack, current-round bet,
folded and all-in flags.  Chips and bets are Python ints. -/
structure HPlayer where
  chips : Int
  current_bet : Int
  folded : Bool
  all_in : Bool
deriving DecidableEq, Repr

/-- The table fields `human_bet` reads and writes. -/
structure BetTable where
  human : HPlayer
  pot : Int
  current_table_bet : Int
  current_betting_position : Nat
  betting_order_len : Nat
  traversed_betting_order : Bool
deriving DecidableEq, Repr

/-- Embedding of `CasinoPlayer.place_bet`: deduct the amount when it does
not exceed the chips, else raise `Not enough chips`. -/
def place_bet (p : HPlayer) (amount : Int) : Except String HPlayer :=
  if amount ≤ p.chips then .ok { p with chips := p.chips - amount }
  else .error "Not enough chips"

/-- Embedding of `PokerPlayer.place_bet`: the base deduction followed by
`current_bet += amount`. -/
def poker_place_bet (p : HPlayer) (amount : Int) : Except String HPlayer :=
  match place_bet p amount with
  | .ok p1 => .ok { p1 with current_bet := p1.current_bet + amount }
  | .error e => .error e

/-- Embedding of `current_betting_position_increment`. -/
def current_betting_position_increment (t : BetTable) : BetTable :=
  let pos := t.current_betting_position + 1
  if t.betting_order_len ≤ pos then
    { t with current_betting_position := 0, traversed_betting_order := true }
  else { t with current_betting_position := pos }

/-- Embedding of `PokerTable.human_bet` for the seat at human position 0.
An all-in or folded seat skips the body.  Otherwise, a net total below the
table bet raises; else an amount above the chips is clamped: `amount` is
set to the old chip count, `place_bet(player.chips)` empties the stack and
sets `all_in`, and then — as in the source — `place_bet(amount)` runs
again on the emptied stack.  On success the table bet is set to the
player's bet unless folded or all-in, the pot grows by the (possibly
updated) table bet, and the betting cursor advances; every raise leaves
the mutations already performed in place and skips the cursor advance. -/
def human_bet (t : BetTable) (amount : Int) : Except String Unit × BetTable :=
  let p := t.human
  if p.all_in = false ∧ p.folded = false then
    let total_bet := amount + p.current_bet
    if t.current_table_bet ≤ total_bet then
      let step : Except String (HPlayer × Int) :=
        if p.chips < amount then
          match poker_place_bet p p.chips with
          | .ok p1 => .ok ({ p1 with all_in := true }, p.chips)
          | .error e => .error e
        else .ok (p, amount)
      match step with
      | .error e => (.error ("Poker Table: bet failed: " ++ e), t)
      | .ok (p1, amt) =>
        match poker_place_bet p1 amt with
        | .error e => (.error ("Poker Table: bet failed: " ++ e), { t with human := p1 })
        | .ok p2 =>
          let t1 := { t with human := p2 }
          let t2 := if p2.folded = false ∧ p2.all_in = false then
              { t1 with current_table_bet := p2.current_bet }
            else t1
          let t3 := { t2 with pot := t2.pot + t2.current_table_bet }
          (.ok (), current_betting_position_increment t3)
    else
      (.error "Poker Table: bet failed: you must at least match the current bet", t)
  else (.ok (), current_betting_position_increment t)

/-- Did the call return normally (no exception)? -/
def isOkE : Except String Unit → Bool
  | .ok _ => true
  | .error _ => false

lemma increment_table_bet (t : BetTable) :
    (current_betting_position_increment t).current_table_bet =
      t.current_table_bet := by
  unfold current_betting_position_increment
  dsimp only
  split <;> rfl

/-- C5 (amended: the exact-match success additionally requires the amount
not to exceed the chip stack; an exact-match bet above the stack raises
through the doubled all-in `place_bet`): for a non-folded, non-all-in
human seat, `human_bet` raises whenever the amount plus the current-round
bet is strictly below the table bet, and succeeds with the table bet
unchanged whenever the amount plus the current-round bet exactly equals
the table bet and the amount is within the chip stack. -/
theorem human_bet_match_table_bet (t : BetTable) (amount : Int)
    (hA : t.human.all_in = false) (hF : t.human.folded = false) :
    (amount + t.human.current_bet < t.current_table_bet →
      isOkE (human_bet t amount).1 = false) ∧
    (amount + t.human.current_bet = t.current_table_bet →
      amount ≤ t.human.chips →
      (human_bet t amount).1 = .ok () ∧
      (human_bet t amount).2.current_table_bet = t.current_table_bet) := by
  constructor
  · intro hlt
    simp only [human_bet]
    rw [if_pos ⟨hA, hF⟩,
      if_neg (by omega : ¬ t.current_table_bet ≤ amount + t.human.current_bet)]
    rfl
  · intro heq hle
    simp only [human_bet]
    rw [if_pos ⟨hA, hF⟩,
      if_pos (by omega : t.current_table_bet ≤ amount + t.human.current_bet),
      if_neg (by omega : ¬ t.human.chips < amount)]
    simp only [poker_place_bet, place_bet, if_pos hle]
    rw [if_pos (show _ ∧ _ from ⟨hF, hA⟩)]
    refine ⟨by trivial, ?_⟩
    rw [increment_table_bet]
    show t.human.current_bet + amount = t.current_table_bet
    omega

/-- A seat with 100 chips and no current bet facing a table bet of 10. -/
def tLow : BetTable := ⟨⟨100, 0, false, false⟩, 0, 10, 0, 4, false⟩

/-- Witness for the amended C5: betting 3 below the table bet of 10 is
rejected; betting exactly 10 succeeds and leaves the table bet at 10. -/
theorem human_bet_match_table_bet_witness :
    isOkE (human_bet tLow 3).1 = false ∧
    ((human_bet tLow 10).1 = .ok () ∧
      (human_bet tLow 10).2.current_table_bet = tLow.current_table_bet) :=
  ⟨(human_bet_match_table_bet tLow 3 rfl rfl).1 (by decide),
   (human_bet_match_table_bet tLow 10 rfl rfl).2 (by decide) (by decide)⟩

/-- A seat with only 5 chips and no current bet facing a table bet of 10. -/
def tShort : BetTable := ⟨⟨5, 0, false, false⟩, 0, 10, 0, 4, false⟩

/-- Counterexample to C5 as stated: a non-folded, non-all-in seat whose
bet of 10 exactly matches the table bet of 10 is nevertheless rejected,
because the amount exceeds the 5-chip stack and the all-in clamp path
calls `place_bet` twice, the second call raising on the emptied stack. -/
theorem human_bet_exact_match_can_fail :
    tShort.human.all_in = false ∧ tShort.human.folded = false ∧
    (10 : Int) + tShort.human.current_bet = tShort.current_table_bet ∧
    isOkE (human_bet tShort 10).1 = false := by decide

/-- A seat with 50 chips facing no table bet. -/
def tOver : BetTable := ⟨⟨50, 0, false, false⟩, 0, 0, 0, 4, false⟩

/-- C6 is violated by the code (code bug): the overbet of 60 with a
50-chip stack raises — the clamp path bets the stack, then repeats
`place_bet` with the old stack size on the now-empty stack, which raises —
yet the failed call leaves the player's chips at 0 instead of the
original 50.  The 50 chips were deducted without ever reaching the pot
(the pot is unchanged), so a failed bet does corrupt the chip totals. -/
theorem human_bet_failed_overbet_destroys_chips :
    isOkE (human_bet tOver 60).1 = false ∧
    tOver.human.chips = 50 ∧
    (human_bet tOver 60).2.human.chips = 0 ∧
    (human_bet tOver 60).2.pot = tOver.pot ∧
    (human_bet tOver 60).2.human.all_in = true := by decide

/-- A seat with 94 chips and a 6-chip current bet calling a table bet of
10, with 20 chips in the pot. -/
def tCall : BetTable := ⟨⟨94, 6, false, false⟩, 20, 10, 0, 4, false⟩

/-- C3 is violated by the code (code bug): a successful human call of 4
chips (completing the 10-chip table bet from a 6-chip current bet) grows
the pot by the full `current_table_bet` of 10, not by the 4 chips the
player actually placed: the pot rises from 20 to 30 while the stack only
drops from 94 to 90, so the pot no longer equals the sum of the bets
placed since the last pot reset. -/
theorem human_bet_pot_adds_table_bet_not_amount :
    isOkE (human_bet tCall 4).1 = true ∧
    (human_bet tCall 4).2.pot = 30 ∧
    (human_bet tCall 4).2.human.chips = 90 ∧
    (human_bet tCall 4).2.pot - tCall.pot ≠
      tCall.human.chips - (human_bet tCall 4).2.human.chips := by decide
